import Mathlib

/-!
Shallow embedding of the winbox-stats collector and grapher
(src/collect.rs, src/graph/plot.rs) together with proofs about it.

Strings are Lean `String`s; all character-level manipulation is done on
`String.data` with structural recursion so that every definition evaluates
inside the kernel.  Rust `f64` metric values are modelled as `ℚ` (every
concrete value appearing in the claims, e.g. 42.5, is exactly
representable, and no rounding-sensitive arithmetic is at stake).
`to_uppercase` / `to_lowercase` / `eq_ignore_ascii_case` are modelled by
ASCII character maps (`Char.toUpper` / `Char.toLower`), which agree with
Rust on all ASCII input.
-/

deriving instance DecidableEq for Except

namespace WinboxStats

/-! ### Character/string helpers mirroring the Rust standard library -/

/-- Char-wise ASCII uppercasing, modelling `str::to_uppercase`. -/
def upperStr (s : String) : String := String.mk (s.data.map Char.toUpper)

/-- Char-wise ASCII lowercasing, modelling `str::to_lowercase`. -/
def lowerStr (s : String) : String := String.mk (s.data.map Char.toLower)

/-- Model of `a.eq_ignore_ascii_case(b)`. -/
def eqIgnoreAsciiCase (a b : String) : Bool := lowerStr a == lowerStr b

/-- Split a character list at every delimiter selected by `p`, keeping empty
pieces, as Rust `str::split` does (so `""` yields `[""]`). -/
def splitCharsAux (p : Char → Bool) : List Char → List Char → List (List Char)
  | [], acc => [acc.reverse]
  | c :: cs, acc =>
      if p c then acc.reverse :: splitCharsAux p cs []
      else splitCharsAux p cs (c :: acc)

/-- Rust `s.split(p)` with empty pieces kept. -/
def splitStr (p : Char → Bool) (s : String) : List String :=
  (splitCharsAux p s.data []).map String.mk

/-- Rust `s.split('@')` specialised to one delimiter character. -/
def splitOnChar (c : Char) (s : String) : List String :=
  splitStr (fun d => d == c) s

/-- Remove every occurrence of character `c`, modelling
`s.replace(c, "")`. -/
def removeChar (c : Char) (s : String) : String :=
  String.mk (s.data.filter (fun d => !(d == c)))

/-- Does `s` start (character-wise) with `pre`? -/
def strStartsWith (s pre : String) : Bool :=
  pre.data.isPrefixOf s.data

/-- Lexicographic order on character lists by code point.  On UTF-8 encoded
strings this coincides with byte order, i.e. the SQLite BINARY collation. -/
def charListLe : List Char → List Char → Bool
  | [], _ => true
  | _ :: _, [] => false
  | a :: as, b :: bs =>
      if a < b then true
      else if a = b then charListLe as bs
      else false

/-- BINARY-collation string comparison. -/
def strLeB (a b : String) : Bool := charListLe a.data b.data

/-- Model of `strLeB` as a relation, for sorting. -/
def strLe (a b : String) : Prop := strLeB a b = true

instance : DecidableRel strLe :=
  fun _ _ => inferInstanceAs (Decidable (_ = true))

/-! ### src/collect.rs -/

/-- Model of `label_for_mount_point` from src/collect.rs.

The Rust guard is `mp.len() >= 2 && mp.chars().nth(1) == Some(':')`; since a
second character weighs at least one byte, the byte-length conjunct is
implied by `nth(1) == Some(':')`, so the guard is equivalent to: the second
character is a colon.  That is how we write it. -/
def label_for_mount_point (mp : String) : String :=
  if mp.data.get? 1 = some ':' then
    match mp.data.head? with
    | some c0 => String.mk [c0.toUpper] ++ "_Drive"
    | none => "_Drive"  -- unreachable: the guard implies at least two chars
  else
    let segs := (splitStr (fun c => c == '/' || c == '\\') mp).filter
      (fun s => !s.isEmpty)
    let last := (segs.getLast?).getD ("Disk")
    upperStr (removeChar ':' last) ++ "_Drive"

/-- Model of `sample_ram_percent` from src/collect.rs, as a function of the two
memory readings (`sysinfo` reports them as `u64`, cast to `f64`). -/
def sample_ram_percent (total avail : ℚ) : ℚ :=
  if total ≤ 0 then 0 else (1 - avail / total) * 100

/-! ### src/graph/plot.rs : filename classification and column picking -/

/-- Model of `split_stem_sqlite` from src/graph/plot.rs. -/
def split_stem_sqlite (stem : String) : String × String × Option String :=
  match splitOnChar '@' stem with
  | [ym, host] => (ym, host, none)
  | [ym, host, metric] => (ym, host, some metric)
  | _ => (stem, "", none)

/-- Is `name` (lowercased) one of the recognised time-column names? -/
def isTimeColName (name : String) : Bool :=
  let l := lowerStr name
  l == "timestamp" || l == "ts" || l == "time"

/-- Is `name` (lowercased) one of the recognised value-column names? -/
def isValColName (name : String) : Bool :=
  let l := lowerStr name
  l == "value" || l == "val"

/-- One step of the column scan in `pick_cols`. -/
def pickColsStep (acc : Option String × Option String) (name : String) :
    Option String × Option String :=
  let tc := if acc.1.isNone && isTimeColName name then some name else acc.1
  let vc := if acc.2.isNone && isValColName name then some name else acc.2
  (tc, vc)

/-- Model of `pick_cols` from src/graph/plot.rs, as a function of the table column
names in declaration order (the rows of `PRAGMA table_info`). -/
def pick_cols (cols : List String) : String × String :=
  let r := cols.foldl pickColsStep (none, none)
  (r.1.getD ("Timestamp"), r.2.getD ("Value"))

/-! ### Civil-date arithmetic (chrono proleptic Gregorian calendar) -/

/-- Gregorian leap-year test. -/
def isLeapYear (y : Nat) : Bool :=
  y % 4 == 0 && (y % 100 != 0 || y % 400 == 0)

/-- Number of days in month `m` of year `y`. -/
def daysInMonth (y m : Nat) : Nat :=
  if m == 2 then (if isLeapYear y then 29 else 28)
  else if m == 4 || m == 6 || m == 9 || m == 11 then 30
  else 31

/-- Days from 1970-01-01 to (civil) date y-m-d, Hinnant `days_from_civil`
algorithm (all intermediate divisions act on non-negative arguments for the
years 0–9999 we parse, so truncating division matches the C++ original). -/
def daysFromCivil (y m d : Int) : Int :=
  let y2 := if m ≤ 2 then y - 1 else y
  let era := Int.tdiv (if 0 ≤ y2 then y2 else y2 - 399) 400
  let yoe := y2 - era * 400
  let doy := Int.tdiv (153 * (if 2 < m then m - 3 else m + 9) + 2) 5 + d - 1
  let doe := yoe * 365 + Int.tdiv yoe 4 - Int.tdiv yoe 100 + doy
  era * 146097 + doe - 719468

/-- Inverse of `daysFromCivil`, Hinnant `civil_from_days`. -/
def civilFromDays (z : Int) : Int × Int × Int :=
  let z2 := z + 719468
  let era := Int.tdiv (if 0 ≤ z2 then z2 else z2 - 146096) 146097
  let doe := z2 - era * 146097
  let yoe := Int.tdiv
    (doe - Int.tdiv doe 1460 + Int.tdiv doe 36524 - Int.tdiv doe 146096) 365
  let y := yoe + era * 400
  let doy := doe - (365 * yoe + Int.tdiv yoe 4 - Int.tdiv yoe 100)
  let mp := Int.tdiv (5 * doy + 2) 153
  let d := doy - Int.tdiv (153 * mp + 2) 5 + 1
  let m := if mp < 10 then mp + 3 else mp - 9
  (if m ≤ 2 then y + 1 else y, m, d)

/-! ### Timestamp parsing (`parse_ts` and the chrono formats it tries) -/

/-- A parsed wall-clock datetime (no timezone), like `NaiveDateTime`.
`second` may be 60 for a chrono leap second. -/
structure DateTimeN where
  year : Nat
  month : Nat
  day : Nat
  hour : Nat
  minute : Nat
  second : Nat
deriving DecidableEq, Repr

/-- Model of `NaiveDateTime::and_utc().timestamp()`: the naive datetime read as UTC.
A chrono leap second (second 60) carries the same timestamp as second 59. -/
def naiveEpoch (dt : DateTimeN) : Int :=
  daysFromCivil dt.year dt.month dt.day * 86400
    + dt.hour * 3600 + dt.minute * 60 + min dt.second 59

/-- Read exactly `n` ASCII digits into a number, returning the rest. -/
def readFixedNat : Nat → Nat → List Char → Option (Nat × List Char)
  | 0, acc, cs => some (acc, cs)
  | n + 1, acc, c :: cs =>
      if c.isDigit then readFixedNat n (acc * 10 + (c.toNat - 48)) cs
      else none
  | _ + 1, _, [] => none

/-- Consume one expected literal character. -/
def expectChar (c : Char) : List Char → Option (List Char)
  | d :: cs => if d == c then some cs else none
  | [] => none

/-- chrono `%.f`: either nothing, or `'.'` followed by 1–9 digits. -/
def readOptFrac (cs : List Char) : Option (List Char) :=
  match cs with
  | '.' :: rest =>
      let ds := rest.takeWhile Char.isDigit
      if ds.length == 0 || 9 < ds.length then none
      else some (rest.drop ds.length)
  | _ => some cs

/-- One chrono format string of the shape used by `parse_ts`:
`%Y<dSep>%m<dSep>%d<tSep>%H:%M:%S` plus an optional `%.f` tail. -/
structure TsFmt where
  dateSep : Char
  dtSep : Char
  allowFrac : Bool
deriving DecidableEq, Repr

/-- Field-range validation chrono applies when assembling the
`NaiveDateTime` (month 1–12, day within the month, second 60 allowed as a
leap second). -/
def validDateTime (dt : DateTimeN) : Bool :=
  1 ≤ dt.month && dt.month ≤ 12 && 1 ≤ dt.day &&
    dt.day ≤ daysInMonth dt.year dt.month &&
    dt.hour ≤ 23 && dt.minute ≤ 59 && dt.second ≤ 60

/-- Model of `NaiveDateTime::parse_from_str` for one format of shape `TsFmt`
(years modelled as exactly four digits; the whole string must be
consumed). -/
def parseWithFmt (f : TsFmt) (s : String) : Option DateTimeN :=
  match readFixedNat 4 0 s.data with
  | none => none
  | some (y, r1) =>
    match expectChar f.dateSep r1 with
    | none => none
    | some r2 =>
      match readFixedNat 2 0 r2 with
      | none => none
      | some (mo, r3) =>
        match expectChar f.dateSep r3 with
        | none => none
        | some r4 =>
          match readFixedNat 2 0 r4 with
          | none => none
          | some (d, r5) =>
            match expectChar f.dtSep r5 with
            | none => none
            | some r6 =>
              match readFixedNat 2 0 r6 with
              | none => none
              | some (h, r7) =>
                match expectChar ':' r7 with
                | none => none
                | some r8 =>
                  match readFixedNat 2 0 r8 with
                  | none => none
                  | some (mi, r9) =>
                    match expectChar ':' r9 with
                    | none => none
                    | some r10 =>
                      match readFixedNat 2 0 r10 with
                      | none => none
                      | some (sec, r11) =>
                        match (if f.allowFrac then readOptFrac r11
                               else some r11) with
                        | none => none
                        | some r12 =>
                          if r12 = [] then
                            let dt : DateTimeN :=
                              ⟨y, mo, d, h, mi, sec⟩
                            if validDateTime dt then some dt else none
                          else none

/-- The five formats tried by `parse_ts`, in source order:
`%Y-%m-%d %H:%M:%S`, `%Y/%m/%d %H:%M:%S`, `%Y-%m-%dT%H:%M:%S`,
`%Y-%m-%d %H:%M:%S%.f`, `%Y-%m-%dT%H:%M:%S%.f`. -/
def tsFormats : List TsFmt :=
  [⟨'-', ' ', false⟩, ⟨'/', ' ', false⟩, ⟨'-', 'T', false⟩,
   ⟨'-', ' ', true⟩, ⟨'-', 'T', true⟩]

/-- Model of `parse_ts` from src/graph/plot.rs: first matching format wins. -/
def parse_ts (s : String) : Option DateTimeN :=
  tsFormats.findSome? (fun f => parseWithFmt f s)

/-! ### A shallow model of the SQLite layer

A database is an association list from table names to tables; a table is a
column-name list plus rows of SQL values.  SQLite compares identifiers
(table and column names) ASCII-case-insensitively, `ORDER BY` on a column
sorts NULL before numeric before text values with `BINARY` (code-point)
collation on text, and `LIKE` is ASCII-case-insensitive with `_` matching
exactly one character. -/

/-- A stored SQL value (the schema in play only uses TEXT and REAL). -/
inductive SqlValue where
  | nullV : SqlValue
  | realV : ℚ → SqlValue
  | textV : String → SqlValue
deriving DecidableEq, Repr

/-- A table: column names in declaration order, and rows of cells aligned
with the columns. -/
structure Table where
  cols : List String
  rows : List (List SqlValue)
deriving DecidableEq, Repr

/-- A database file. -/
abbrev Db := List (String × Table)

/-- SQLite identifier comparison (ASCII case-insensitive). -/
def nameEq (a b : String) : Bool := eqIgnoreAsciiCase a b

/-- Look a table up by name. -/
def dbLookup (db : Db) (t : String) : Option Table :=
  (db.find? (fun p => nameEq p.1 t)).map Prod.snd

/-- Replace the (first) table named `t` by `f` of it. -/
def dbUpdateFirst : Db → String → (Table → Table) → Db
  | [], _, _ => []
  | p :: rest, t, f =>
      if nameEq p.1 t then (p.1, f p.2) :: rest
      else p :: dbUpdateFirst rest t f

/-- Index of the column matching `name` (SQLite identifier comparison). -/
def colIdxCi (cols : List String) (name : String) : Option Nat :=
  cols.findIdx? (fun c => nameEq c name)

/-- Model of `ensure_table` from src/collect.rs: `CREATE TABLE IF NOT EXISTS`
with columns `("Timestamp" TEXT, "Value" REAL)` (the index creation has no
observable effect in this model). -/
def ensure_table (db : Db) (t : String) : Db :=
  if (dbLookup db t).isSome then db
  else db ++ [(t, ⟨["Timestamp", "Value"], []⟩)]

/-- Model of `insert_sample` from src/collect.rs:
`INSERT INTO "t"("Timestamp","Value") VALUES (?1, ?2)`.  Fails when the
table or one of the named columns is missing; other columns (none exist in
the tables this program creates) would receive NULL. -/
def insert_sample (db : Db) (t ts : String) (v : ℚ) : Except String Db :=
  match dbLookup db t with
  | none => .error ("no such table")
  | some tb =>
    match colIdxCi tb.cols ("Timestamp"), colIdxCi tb.cols ("Value") with
    | some iT, some iV =>
        let row := (List.range tb.cols.length).map (fun j =>
          if j = iT then SqlValue.textV ts
          else if j = iV then SqlValue.realV v
          else SqlValue.nullV)
        .ok (dbUpdateFirst db t (fun tb2 => ⟨tb2.cols, tb2.rows ++ [row]⟩))
    | _, _ => .error ("no such column")

/-- Does `n` match the LIKE pattern `sqlite_%`?  LIKE is ASCII-case-insensitive and
the underscore wildcard matches exactly one (arbitrary) character, so this is: at least seven
characters, the first six case-insensitively spelling `sqlite`. -/
def likeSqlitePat (n : String) : Bool :=
  7 ≤ n.data.length && strStartsWith (lowerStr n) "sqlite"

/-- Model of `list_tables` from src/graph/plot.rs:
the query `SELECT name FROM sqlite_master` restricted to tables, filtered
by `NOT LIKE` with pattern `sqlite_%`, ordered by name ascending. -/
def list_tables (db : Db) : List String :=
  List.insertionSort strLe
    ((db.map Prod.fst).filter (fun n => !likeSqlitePat n))

/-- The cell of row `r` in column `i`. -/
def cellAt (r : List SqlValue) (i : Nat) : SqlValue :=
  (r.get? i).getD SqlValue.nullV

/-- SQLite `ORDER BY` comparison on a single column: NULL < numeric < text,
numerics by value, text by code points (BINARY collation). -/
def sqlValLeB : SqlValue → SqlValue → Bool
  | .nullV, _ => true
  | .realV _, .nullV => false
  | .realV a, .realV b => decide (a ≤ b)
  | .realV _, .textV _ => true
  | .textV _, .nullV => false
  | .textV _, .realV _ => false
  | .textV a, .textV b => strLeB a b

/-- Row order induced by `ORDER BY` on column `iT`. -/
def rowLe (iT : Nat) (r1 r2 : List SqlValue) : Prop :=
  sqlValLeB (cellAt r1 iT) (cellAt r2 iT) = true

instance (iT : Nat) : DecidableRel (rowLe iT) :=
  fun _ _ => inferInstanceAs (Decidable (_ = true))

/-- Model of `row.get::<_, String>(0)` on a cell: only TEXT converts. -/
def getTextCell : SqlValue → Except String String
  | .textV s => .ok s
  | _ => .error ("InvalidColumnType")

/-- Model of `row.get::<_, f64>(1)` on a cell: only a numeric converts. -/
def getRealCell : SqlValue → Except String ℚ
  | .realV q => .ok q
  | _ => .error ("InvalidColumnType")

/-- Extract the (timestamp text, value) pair of one result row, as the loop
body of `read_points` does with `row.get(0)?` and `row.get(1)?`. -/
def readRow (iT iV : Nat) (r : List SqlValue) : Except String (String × ℚ) := do
  let ts ← getTextCell (cellAt r iT)
  let v ← getRealCell (cellAt r iV)
  pure (ts, v)

/-- Model of `read_points` from src/graph/plot.rs: resolve columns with
`pick_cols`, run `SELECT tc, vc FROM table ORDER BY tc ASC`, and keep the
rows whose timestamp text parses, as `(epoch seconds, value)` pairs. -/
def read_points (db : Db) (table : String) : Except String (List (Int × ℚ)) :=
  match dbLookup db table with
  | none => .error ("no such table")
  | some tb =>
    let cols := pick_cols tb.cols
    match colIdxCi tb.cols cols.1, colIdxCi tb.cols cols.2 with
    | some iT, some iV =>
        match (List.insertionSort (rowLe iT) tb.rows).mapM (readRow iT iV) with
        | .error e => .error e
        | .ok prs => .ok (prs.filterMap (fun p =>
            (parse_ts p.1).map (fun dt => (naiveEpoch dt, p.2))))
    | _, _ => .error ("no such column")

/-! ### src/graph/plot.rs : rendering -/

/-- The pure geometry `render_series` computes for a non-empty point list:
the x-range of the chart and the vertical day gridlines it draws.  Drawing
itself is I/O and is not modelled. -/
structure RenderInfo where
  minX : Int
  maxX : Int
  lastDay : Int
  gridTicks : List Int
deriving DecidableEq, Repr

/-- Model of `DateTime::from_timestamp(t, 0).with_timezone(&Local)` projected to a
civil date, for a local zone at fixed offset `off` seconds east of UTC. -/
def localCivil (off t : Int) : Int × Int × Int :=
  civilFromDays (Int.fdiv (t + off) 86400)

/-- The `last_day` computation of `render_series`: day number of the day
before the first day of the month after the month (in local time, offset
`off`) containing the first point instant `minX`, with the December case
rolling the year over. -/
def renderLastDay (off minX : Int) : Int :=
  let c := localCivil off minX
  let pr := if c.2.1 = 12 then (c.1 + 1, 1) else (c.1, c.2.1 + 1)
  (civilFromDays (daysFromCivil pr.1 pr.2 1 - 1)).2.2

/-- The day gridlines `render_series` draws: days 2..=last_day of the month
of the first point, each at its midnight read via `and_utc()`, kept only
when inside `[minX, maxX]`. -/
def renderTicks (off minX maxX : Int) : List Int :=
  let c := localCivil off minX
  (List.range' 2 (renderLastDay off minX - 1).toNat).filterMap
    (fun (dday : Nat) =>
      let x := daysFromCivil c.1 c.2.1 (dday : Int) * 86400
      if minX ≤ x ∧ x ≤ maxX then some x else none)

/-- Model of `render_series` from src/graph/plot.rs (its chart geometry):
`none` models the early `return Ok(())` on an empty point list — no file is
produced.  `off` is the fixed local-timezone offset in seconds.  The x
range is the first and last point instants. -/
def render_series (off : Int) (pts : List (Int × ℚ)) : Option RenderInfo :=
  match pts with
  | [] => none
  | p :: rest =>
      some ⟨p.1, (rest.getLastD p).1, renderLastDay off p.1,
        renderTicks off p.1 (rest.getLastD p).1⟩

/-! ### src/graph/plot.rs : the directory scan -/

/-- One directory entry seen by the scan, with the outcome that opening it
as a SQLite database would have (`Connection::open` plus reading the
schema). -/
structure ScanFile where
  isFile : Bool
  stem : String
  ext : Option String
  db : Except String Db

/-- The scan skip test: process only regular files whose extension is
(case-insensitively) `sqlite`. -/
def extIsSqlite (f : ScanFile) : Bool :=
  f.isFile && match f.ext with
    | some e => eqIgnoreAsciiCase e ("sqlite")
    | none => false

/-- Table choice for a per-metric database: the literal name `stats` when
any listed table matches it case-insensitively, else `tables[0]`. -/
def chooseMetricTable (tables : List String) : String :=
  if tables.any (fun t => eqIgnoreAsciiCase t ("stats")) then ("stats")
  else tables.headD ("")

/-- Loop body for the monthly branch: read a table, skip it when empty,
else emit `<stem>@<table>.png`. -/
def processMonthlyTable (db : Db) (stem : String) (outs : List String)
    (t : String) : Except String (List String) := do
  let pts ← read_points db t
  if pts.isEmpty then pure outs
  else pure (outs ++ [stem ++ "@" ++ t ++ ".png"])

/-- Processing of one directory entry inside `plot_all_sqlite_in_cwd`.
Every `?` of the Rust body is an `Except` bind, so a failure propagates. -/
def processFile (outs : List String) (f : ScanFile) :
    Except String (List String) :=
  if !extIsSqlite f then .ok outs
  else match f.db with
  | .error e => .error e
  | .ok db =>
    let tables := list_tables db
    if tables.isEmpty then .ok outs
    else match split_stem_sqlite f.stem with
    | (_, _, some _) => do
        let table := chooseMetricTable tables
        let _ ← read_points db table
        pure (outs ++ [f.stem ++ ".png"])
    | (_, _, none) => tables.foldlM (processMonthlyTable db f.stem) outs

/-- Model of `plot_all_sqlite_in_cwd` from src/graph/plot.rs over a given directory
listing. -/
def plot_all_sqlite_in_cwd (files : List ScanFile) :
    Except String (List String) :=
  files.foldlM processFile []

/-! ### src/collect.rs : run_collect -/

/-- One mounted disk as reported by `sysinfo::Disks`. -/
structure DiskInfo where
  total : ℚ
  avail : ℚ
  mount : String

/-- Loop body of the disk pass in `run_collect`: mounts with non-positive
total space are skipped, the rest get one row in their label table. -/
def collectDiskStep (ts : String) (db : Db) (d : DiskInfo) :
    Except String Db :=
  if d.total ≤ 0 then .ok db
  else
    let usedPct := (1 - d.avail / d.total) * 100
    let label := label_for_mount_point d.mount
    insert_sample (ensure_table db label) label ts usedPct

/-- Model of `run_collect` from src/collect.rs.  The environment readings (hostname,
current month, the one timestamp taken by `now_timestamp()` before any
metric is sampled, the CPU reading, the two memory readings, the disk list)
are parameters; `db0` is the opened scope database.  Returns the final
database and the printed confirmation line. -/
def run_collect (db0 : Db) (host yyyymm ts : String)
    (cpu memTotal memAvail : ℚ) (disks : List DiskInfo) :
    Except String (Db × String) := do
  let dbName := yyyymm ++ "@" ++ host ++ ".sqlite"
  let db1 ← insert_sample (ensure_table db0 ("CPU")) "CPU" ts cpu
  let ram := sample_ram_percent memTotal memAvail
  let db2 ← insert_sample (ensure_table db1 ("RAM")) "RAM" ts ram
  let db3 ← disks.foldlM (collectDiskStep ts) db2
  pure (db3, "Wrote record into " ++ dbName ++ " at " ++ ts)

/-! ### Spec-side definitions (used to compare the code against the
wording of the specification) and concrete fixtures -/

/-- The condition named by the spec: the string begins with a single letter
followed by a colon. -/
def beginsLetterColon (mp : String) : Bool :=
  match mp.data with
  | c0 :: ':' :: _ => c0.isAlpha
  | _ => false

/-- The last non-empty slash- or backslash-separated segment. -/
def lastNonemptySeg (mp : String) : Option String :=
  ((splitStr (fun c => c == '/' || c == '\\') mp).filter
    (fun s => !s.isEmpty)).getLast?

/-- The mount label exactly as the spec words it: uppercased last non-empty
segment with colons stripped plus the drive suffix, and the literal
`Disk_Drive` when no segment exists. -/
def mountLabelSpec (mp : String) : String :=
  match lastNonemptySeg mp with
  | some seg => upperStr (removeChar ':' seg) ++ "_Drive"
  | none => "Disk_Drive"

/-- The amended mount label for the non-drive branch: as `mountLabelSpec`,
except that the fallback is the uppercased `DISK_Drive` the code actually
produces. -/
def mountLabelAmended (mp : String) : String :=
  match lastNonemptySeg mp with
  | some seg => upperStr (removeChar ':' seg) ++ "_Drive"
  | none => "DISK_Drive"

/-- Table listing exactly as the spec words it: every table whose name does
not start with the literal prefix `sqlite_`, in ascending order. -/
def listTablesClaim (db : Db) : List String :=
  List.insertionSort strLe
    ((db.map Prod.fst).filter (fun n => !(strStartsWith n ("sqlite_"))))

/-- One stored sample row of a scope table. -/
def mkRow (p : String × ℚ) : List SqlValue :=
  [SqlValue.textV p.1, SqlValue.realV p.2]

/-- A table holding the given (timestamp text, value) samples under the
given column names. -/
def mkScope (cols : List String) (data : List (String × ℚ)) : Table :=
  ⟨cols, data.map mkRow⟩

/-- Does the timestamp text of a sample parse under one of the accepted
formats? -/
def pairParses (p : String × ℚ) : Bool := (parse_ts p.1).isSome

/-- Does the first cell of a stored row hold timestamp text that parses? -/
def rowParses (r : List SqlValue) : Bool :=
  match cellAt r 0 with
  | .textV s => (parse_ts s).isSome
  | _ => false

/-- Well-formedness of one scope table produced by the collector: the two
standard columns, and every row holding the single run timestamp `ts` and
some value. -/
def tableWf (ts : String) (tb : Table) : Prop :=
  tb.cols = ["Timestamp", "Value"] ∧
    ∀ r ∈ tb.rows, ∃ q, r = [SqlValue.textV ts, SqlValue.realV q]

/-- Well-formedness of a whole collector database. -/
def dbWf (ts : String) (db : Db) : Prop := ∀ p ∈ db, tableWf ts p.2

/-- Total number of stored rows across all tables. -/
def dbRowCount (db : Db) : Nat := (db.map (fun p => p.2.rows.length)).sum

/-- C1 fixture: append one sample to a fresh scope, read the table back. -/
def c1Read : Except String (List (Int × ℚ)) :=
  match insert_sample (ensure_table [] ("CPU")) "CPU"
      "2025-11-03 10:00:00" (42.5 : ℚ) with
  | .ok db => read_points db "CPU"
  | .error e => .error e

/-- C3 fixture: a healthy monthly scope database with one readable row. -/
def c3GoodDb : Db :=
  [("CPU", ⟨["Timestamp", "Value"],
    [[SqlValue.textV "2025-11-03 10:00:00", SqlValue.realV 1]]⟩)]

/-- C3 fixture: the healthy file as the directory scan sees it. -/
def c3Good : ScanFile := ⟨true, "202511@HOST", some "sqlite", .ok c3GoodDb⟩

/-- C3 fixture: a discovered .sqlite file whose open fails. -/
def c3Bad : ScanFile := ⟨true, "202511@BADF", some "sqlite", .error "boom"⟩

/-- C9 fixture: a database holding tables named sqliteZ and zz. -/
def c9Db : Db :=
  [("sqliteZ", ⟨["Timestamp", "Value"], []⟩),
   ("zz", ⟨["Timestamp", "Value"], []⟩)]

/-- C9 fixture: a per-metric database whose only table is named STATS. -/
def c9StatsDb : Db := [("STATS", ⟨["ts", "value"], []⟩)]

/-- C7 fixture: two points spanning all of November 2025 (epochs are the
stored naive timestamps read as UTC, matching `read_points`). -/
def novPts : List (Int × ℚ) :=
  [(daysFromCivil 2025 11 1 * 86400, 50),
   (daysFromCivil 2025 11 30 * 86400 + 86399, 60)]

/-- C7 fixture: a single point in December 2025, to exercise the
December-to-January rollover in the month-length computation. -/
def decPts : List (Int × ℚ) := [(daysFromCivil 2025 12 5 * 86400, 50)]

/-! ## Theorems -/

/-- C1.  Round-trip: appending the sample with timestamp text
2025-11-03 10:00:00 and value 42.5 to a fresh scope via `insert_sample`
(after `ensure_table`) and reading the table back with `read_points` yields
exactly the one point (1762164000, 42.5), where 1762164000 is the epoch
instant for 2025-11-03T10:00:00 under the fixed, deterministic conversion
the code applies to the stored wall-clock text (`and_utc`, offset zero). -/
theorem C1_round_trip :
    c1Read = .ok [(1762164000, (42.5 : ℚ))] ∧
    (1762164000 : Int) = naiveEpoch ⟨2025, 11, 3, 10, 0, 0⟩ ∧
    parse_ts ("2025-11-03 10:00:00") = some ⟨2025, 11, 3, 10, 0, 0⟩ :=
  ⟨rfl, by decide, by decide⟩

/-- C2, counterexample.  The claim quantifies over every mount string that
does not begin with a letter followed by a colon and asserts the
uppercased-last-segment behaviour there, with fallback exactly
`Disk_Drive`; but the input 1:foo (second character a colon, first not a
letter) takes the drive branch and yields 1_Drive, not the claimed
1FOO_Drive, and the empty input yields DISK_Drive, not `Disk_Drive`. -/
theorem C2_counterexample :
    beginsLetterColon ("1:foo") = false ∧
    label_for_mount_point ("1:foo") = "1_Drive" ∧
    mountLabelSpec ("1:foo") = "1FOO_Drive" ∧
    label_for_mount_point ("1:foo") ≠ mountLabelSpec ("1:foo") ∧
    label_for_mount_point ("") = "DISK_Drive" ∧
    mountLabelSpec ("") = "Disk_Drive" ∧
    label_for_mount_point ("") ≠ mountLabelSpec ("") := by
  decide

/-- C2, amended.  For every mount string whose second character is not a
colon (this, not "does not begin with a letter and a colon", is the code
branch condition), the label is the uppercased last non-empty slash- or
backslash-separated segment with colons stripped plus the drive suffix,
with fallback DISK_Drive (uppercased) when no segment exists. -/
theorem C2_label_amended (mp : String) (h : mp.data.get? 1 ≠ some ':') :
    label_for_mount_point mp = mountLabelAmended mp := by
  rw [label_for_mount_point, if_neg h]
  unfold mountLabelAmended lastNonemptySeg
  rcases hseg : ((splitStr (fun c => c == '/' || c == '\\') mp).filter
      (fun s => !s.isEmpty)).getLast? with _ | seg
  · simp only [hseg, Option.getD_none]
    decide
  · simp only [hseg, Option.getD_some]

/-- C2 witness: the amended theorem applied at the POSIX mount /mnt/data. -/
theorem C2_label_amended_witness :
    label_for_mount_point ("/mnt/data") = mountLabelAmended ("/mnt/data") :=
  C2_label_amended ("/mnt/data") (by decide)

/-- C3, counterexample.  The claim says a failure while reading one
discovered scope file never aborts the whole scan, but a file whose open
fails makes the whole run return that error — the healthy file after it,
which alone would produce a chart, is never processed. -/
theorem C3_counterexample :
    plot_all_sqlite_in_cwd [c3Bad, c3Good] = .error ("boom") ∧
    plot_all_sqlite_in_cwd [c3Good] = .ok ["202511@HOST@CPU.png"] :=
  ⟨rfl, rfl⟩

/-- C3, amended.  A failure opening a discovered .sqlite regular file (and
likewise any error from listing its tables or querying it, all reached by
the same error-propagating binds) aborts the whole scan: no later file is
processed and the run returns that error. -/
theorem C3_scan_aborts (f : ScanFile) (e : String) (rest : List ScanFile)
    (h1 : extIsSqlite f = true) (h2 : f.db = .error e) :
    plot_all_sqlite_in_cwd (f :: rest) = .error e := by
  have hpf : processFile [] f = .error e := by
    simp [processFile, h1, h2]
  show List.foldlM processFile [] (f :: rest) = .error e
  rw [List.foldlM_cons, hpf]
  rfl

/-- C3 witness: the amended theorem at the failing fixture file. -/
theorem C3_scan_aborts_witness :
    plot_all_sqlite_in_cwd [c3Bad] = .error ("boom") :=
  C3_scan_aborts c3Bad ("boom") [] (by decide) rfl

/-- C4.  Filename-stem classification is total and splits on the at sign:
two segments give a monthly scope, three give a per-metric scope, any
other shape degrades to (whole stem, empty host, no metric); the two
concrete stems of the claim classify as stated. -/
theorem C4_split_stem (stem a b c : String) :
    (splitOnChar '@' stem = [a, b] → split_stem_sqlite stem = (a, b, none)) ∧
    (splitOnChar '@' stem = [a, b, c] →
      split_stem_sqlite stem = (a, b, some c)) ∧
    ((splitOnChar '@' stem).length ≠ 2 → (splitOnChar '@' stem).length ≠ 3 →
      split_stem_sqlite stem = (stem, "", none)) ∧
    split_stem_sqlite ("202511@MYHOST") = ("202511", "MYHOST", none) ∧
    split_stem_sqlite ("2025-11@MYHOST@CPU") =
      ("2025-11", "MYHOST", some ("CPU")) := by
  refine ⟨?_, ?_, ?_, by decide, by decide⟩
  · intro h; rw [split_stem_sqlite, h]
  · intro h; rw [split_stem_sqlite, h]
  · intro h2 h3
    rcases hsp : splitOnChar '@' stem with _ | ⟨x, _ | ⟨y, _ | ⟨z, _ | ⟨w, tl⟩⟩⟩⟩
    · rw [split_stem_sqlite, hsp]
    · rw [split_stem_sqlite, hsp]
    · exact absurd (by rw [hsp]; rfl) h2
    · exact absurd (by rw [hsp]; rfl) h3
    · rw [split_stem_sqlite, hsp]

/-- C4 witness: the classification applied to concrete two-, three- and
four-segment stems. -/
theorem C4_split_stem_witness :
    split_stem_sqlite ("p@h") = ("p", "h", none) ∧
    split_stem_sqlite ("p@h@m") = ("p", "h", some ("m")) ∧
    split_stem_sqlite ("a@b@c@d") = ("a@b@c@d", "", none) :=
  ⟨(C4_split_stem ("p@h") "p" "h" "").1 (by decide),
   (C4_split_stem ("p@h@m") "p" "h" "m").2.1 (by decide),
   (C4_split_stem ("a@b@c@d") "" "" "").2.2.1 (by decide) (by decide)⟩

/-- C8, counterexample.  The claim asserts the sampler result always lies
in the interval from 0 to 100, but for the representable reading pair
total 1, available 2 (available exceeding total) the result is negative. -/
theorem C8_counterexample : sample_ram_percent 1 2 < 0 := by
  norm_num [sample_ram_percent]

/-- C8, amended.  The sampler returns exactly 0 when the reported total is
non-positive (never reaching the division), otherwise
(1 - available/total) * 100; the result lies in the interval from 0 to 100
whenever the readings satisfy 0 ≤ available ≤ total. -/
theorem C8_ram_percent_amended (total avail : ℚ) :
    (total ≤ 0 → sample_ram_percent total avail = 0) ∧
    (0 < total → sample_ram_percent total avail = (1 - avail / total) * 100) ∧
    (0 ≤ avail → avail ≤ total →
      0 ≤ sample_ram_percent total avail ∧
        sample_ram_percent total avail ≤ 100) := by
  unfold sample_ram_percent
  refine ⟨fun h => if_pos h, fun h => if_neg (not_le.mpr h), fun ha hat => ?_⟩
  by_cases h : total ≤ 0
  · simp [h]
  · push_neg at h
    rw [if_neg (not_le.mpr h)]
    have h1 : avail / total ≤ 1 := (div_le_one h).mpr hat
    have h2 : 0 ≤ avail / total := div_nonneg ha h.le
    constructor <;> nlinarith

/-- C8 witness: the amended theorem at the readings (0, 5) and (4, 1). -/
theorem C8_ram_percent_amended_witness :
    sample_ram_percent 0 5 = 0 ∧
    0 ≤ sample_ram_percent 4 1 ∧ sample_ram_percent 4 1 ≤ 100 :=
  ⟨(C8_ram_percent_amended 0 5).1 le_rfl,
   ((C8_ram_percent_amended 4 1).2.2 (by norm_num) (by norm_num)).1,
   ((C8_ram_percent_amended 4 1).2.2 (by norm_num) (by norm_num)).2⟩

/-- C9, counterexample.  The claim characterises the listing as excluding
exactly the tables whose names start with the literal prefix sqlite
underscore; but the filter is the SQL LIKE pattern, whose underscore is a
single-character wildcard and which compares case-insensitively, so the
table sqliteZ is also excluded — and with tables sqliteZ and zz present
the claimed listing even selects a different first table. -/
theorem C9_counterexample :
    list_tables c9Db = ["zz"] ∧
    listTablesClaim c9Db = ["sqliteZ", "zz"] ∧
    chooseMetricTable (list_tables c9Db) = "zz" ∧
    chooseMetricTable (listTablesClaim c9Db) = "sqliteZ" := by
  decide

/-- Totality of the BINARY-collation character order. -/
theorem charListLe_total :
    ∀ (as bs : List Char), charListLe as bs = true ∨ charListLe bs as = true := by
  intro as
  induction as with
  | nil => intro bs; left; rfl
  | cons a as ih =>
    intro bs
    cases bs with
    | nil => right; rfl
    | cons b bs =>
      by_cases hab : a < b
      · left; simp [charListLe, hab]
      · by_cases heq : a = b
        · subst heq
          rcases ih bs with h | h
          · left; simp [charListLe, h]
          · right; simp [charListLe, h]
        · have hba : b < a := by
            rcases lt_trichotomy a b with h | h | h
            · exact absurd h hab
            · exact absurd h heq
            · exact h
          right; simp [charListLe, hba]

/-- Transitivity of the BINARY-collation character order. -/
theorem charListLe_trans :
    ∀ (as bs cs : List Char), charListLe as bs = true →
      charListLe bs cs = true → charListLe as cs = true := by
  intro as
  induction as with
  | nil => intro bs cs _ _; rfl
  | cons a as ih =>
    intro bs cs h1 h2
    cases bs with
    | nil => simp [charListLe] at h1
    | cons b bs =>
      cases cs with
      | nil => simp [charListLe] at h2
      | cons c cs =>
        by_cases hab : a < b
        · by_cases hbc : b < c
          · simp [charListLe, hab.trans hbc]
          · by_cases hbceq : b = c
            · subst hbceq; simp [charListLe, hab]
            · simp [charListLe, hbc, hbceq] at h2
        · by_cases habeq : a = b
          · subst habeq
            simp only [charListLe, lt_irrefl, if_false, if_pos rfl] at h1
            by_cases hbc : a < c
            · simp [charListLe, hbc]
            · by_cases hbceq : a = c
              · subst hbceq
                simp only [charListLe, lt_irrefl, if_false, if_pos rfl] at h2 ⊢
                exact ih bs cs h1 h2
              · simp [charListLe, hbc, hbceq] at h2
          · simp [charListLe, hab, habeq] at h1

instance : IsTotal String strLe :=
  ⟨fun a b => charListLe_total a.data b.data⟩

instance : IsTrans String strLe :=
  ⟨fun a b c h1 h2 => charListLe_trans a.data b.data c.data h1 h2⟩

/-- C9, amended.  For a per-metric scope with a non-empty table listing,
the chosen table is the literal name stats whenever some listed table
matches it case-insensitively, else the first listed table; the listing is
sorted ascending in code-point (BINARY) order and holds exactly the tables
not matching the LIKE pattern sqlite-underscore-percent (underscore being
a one-character wildcard, comparison ASCII-case-insensitive). -/
theorem C9_table_choice (db : Db) (h : list_tables db ≠ []) :
    ((list_tables db).any (fun t => eqIgnoreAsciiCase t ("stats")) = true →
      chooseMetricTable (list_tables db) = "stats") ∧
    ((list_tables db).any (fun t => eqIgnoreAsciiCase t ("stats")) = false →
      chooseMetricTable (list_tables db) = (list_tables db).headD ("") ∧
        (list_tables db).headD ("") ∈ list_tables db) ∧
    List.Sorted strLe (list_tables db) ∧
    (∀ n, n ∈ list_tables db ↔ n ∈ db.map Prod.fst ∧ likeSqlitePat n = false) := by
  refine ⟨fun ha => ?_, fun ha => ⟨?_, ?_⟩, ?_, fun n => ?_⟩
  · simp [chooseMetricTable, ha]
  · simp [chooseMetricTable, ha]
  · rcases hl : list_tables db with _ | ⟨t, tl⟩
    · exact absurd hl h
    · simp
  · exact List.sorted_insertionSort strLe _
  · rw [list_tables, (List.perm_insertionSort strLe _).mem_iff,
      List.mem_filter]
    simp [Bool.not_eq_true']

/-- C9 witness: the amended theorem at a per-metric database whose only
table is named STATS (uppercase). -/
theorem C9_table_choice_witness :
    chooseMetricTable (list_tables c9StatsDb) = "stats" :=
  (C9_table_choice c9StatsDb (by decide)).1 (by decide)

/-- Looking up the only table of a one-table database finds it. -/
theorem dbLookup_singleton (name : String) (tb : Table) :
    dbLookup [(name, tb)] name = some tb := by
  simp [dbLookup, List.find?_cons, nameEq, eqIgnoreAsciiCase]

/-- Reading rows of the well-typed scope shape always succeeds, and the
extracted pairs re-assemble the rows. -/
theorem mapM_readRow_ok (rows : List (List SqlValue))
    (h : ∀ r ∈ rows, ∃ s q, r = [SqlValue.textV s, SqlValue.realV q]) :
    ∃ prs, rows.mapM (readRow 0 1) = Except.ok prs ∧
      rows = prs.map mkRow := by
  induction rows with
  | nil => exact ⟨[], rfl, rfl⟩
  | cons r rows ih =>
    obtain ⟨s, q, rfl⟩ := h r (List.mem_cons_self r rows)
    obtain ⟨prs, hok, hmap⟩ := ih (fun r hr => h r (List.mem_cons_of_mem _ hr))
    refine ⟨(s, q) :: prs, ?_, ?_⟩
    · rw [List.mapM_cons]
      have h1 : readRow 0 1 [SqlValue.textV s, SqlValue.realV q] =
          Except.ok (s, q) := rfl
      rw [h1, hok]
      rfl
    · simp [mkRow, ← hmap]

/-- Reading a one-table scope database with the standard columns reduces to
sorting the rows, decoding each, and keeping the parseable ones. -/
theorem read_points_mkScope_std (name : String) (data : List (String × ℚ)) :
    read_points [(name, mkScope ["Timestamp", "Value"] data)] name =
      match (List.insertionSort (rowLe 0) (data.map mkRow)).mapM
          (readRow 0 1) with
      | .error e => .error e
      | .ok prs => .ok (prs.filterMap (fun p =>
          (parse_ts p.1).map (fun dt => (naiveEpoch dt, p.2)))) := by
  simp only [read_points, dbLookup_singleton]
  rfl

/-- The length of a filterMap is the count of inputs it keeps. -/
theorem length_filterMap_eq {α β : Type} (f : α → Option β) (l : List α) :
    (l.filterMap f).length = l.countP (fun a => (f a).isSome) := by
  induction l with
  | nil => rfl
  | cons a l ih =>
    cases hfa : f a <;>
      simp [List.filterMap_cons, hfa, List.countP_cons, ih]

/-- The column scan fold is a pair of first-match searches. -/
theorem pickColsFold (cols : List String) (acc : Option String × Option String) :
    cols.foldl pickColsStep acc =
      (acc.1.orElse (fun _ => cols.find? isTimeColName),
       acc.2.orElse (fun _ => cols.find? isValColName)) := by
  induction cols generalizing acc with
  | nil => simp
  | cons c cols ih =>
    rw [List.foldl_cons, ih]
    rcases acc with ⟨t, v⟩
    cases t <;> cases v <;>
      by_cases hT : isTimeColName c = true <;>
        by_cases hV : isValColName c = true <;>
          simp_all [pickColsStep, List.find?_cons]

/-- C5.  Column resolution scans names case-insensitively in column order:
the first name in the time set becomes the time column, the first in the
value set the value column, with literal defaults Timestamp and Value; the
two column layouts of the claim both resolve, and identical stored rows
give identical point sequences, the read succeeding. -/
theorem C5_column_resolution (cols : List String) (data : List (String × ℚ)) :
    pick_cols cols = ((cols.find? isTimeColName).getD ("Timestamp"),
      (cols.find? isValColName).getD ("Value")) ∧
    pick_cols ["ts", "value"] = ("ts", "value") ∧
    pick_cols ["Timestamp", "Value"] = ("Timestamp", "Value") ∧
    read_points [("A", mkScope ["ts", "value"] data)] ("A") =
      read_points [("A", mkScope ["Timestamp", "Value"] data)] ("A") ∧
    ∃ pts, read_points [("A", mkScope ["Timestamp", "Value"] data)] ("A") =
      .ok pts := by
  refine ⟨?_, by decide, by decide, rfl, ?_⟩
  · rw [pick_cols, pickColsFold]
    simp
  · have hsh : ∀ r ∈ List.insertionSort (rowLe 0) (data.map mkRow),
        ∃ s q, r = [SqlValue.textV s, SqlValue.realV q] := by
      intro r hr
      rw [List.mem_insertionSort] at hr
      obtain ⟨p, _, rfl⟩ := List.mem_map.mp hr
      exact ⟨p.1, p.2, rfl⟩
    obtain ⟨prs, hok, _⟩ := mapM_readRow_ok _ hsh
    refine ⟨prs.filterMap (fun p =>
      (parse_ts p.1).map (fun dt => (naiveEpoch dt, p.2))), ?_⟩
    rw [read_points_mkScope_std, hok]

/-- A first-some search returns the first hit: if position j holds a hit
and every earlier position misses, the search returns the hit at j. -/
theorem findSome?_first {α β : Type} (f : α → Option β) :
    ∀ (l : List α) (j : Nat) (g : α) (b : β), l.get? j = some g →
      f g = some b →
      (∀ k gk, k < j → l.get? k = some gk → f gk = none) →
      l.findSome? f = some b := by
  intro l
  induction l with
  | nil => intro j g b hj; simp at hj
  | cons a l ih =>
    intro j g b hj hg hprev
    cases j with
    | zero =>
      simp only [List.get?_cons_zero, Option.some.injEq] at hj
      subst hj
      simp [List.findSome?_cons, hg]
    | succ j =>
      have ha : f a = none := hprev 0 a (Nat.succ_pos j) rfl
      simp only [List.findSome?_cons, ha]
      exact ih j g b (by simpa using hj) hg
        (fun k gk hk hgk => hprev (k + 1) gk (by omega) (by simpa using hgk))

/-- C6.  Each result row's timestamp text is tried against the format list
in order and the first matching format wins; a row matching no format is
silently dropped (the read still succeeds and the other rows survive), and
each parsing row contributes exactly one point — the point count equals
the count of parseable rows and every point stems from a parseable row. -/
theorem C6_format_tolerance (data : List (String × ℚ)) (s : String) :
    (∃ pts, read_points [("stats", mkScope ["Timestamp", "Value"] data)]
        ("stats") = .ok pts ∧
      pts.length = data.countP pairParses ∧
      (∀ p ∈ pts, ∃ r ∈ data, ∃ dt, parse_ts r.1 = some dt ∧
        p = (naiveEpoch dt, r.2))) ∧
    (∀ (j : Nat) (g : TsFmt) (dt : DateTimeN), tsFormats.get? j = some g →
      parseWithFmt g s = some dt →
      (∀ k gk, k < j → tsFormats.get? k = some gk →
        parseWithFmt gk s = none) →
      parse_ts s = some dt) ∧
    ((∀ g ∈ tsFormats, parseWithFmt g s = none) → parse_ts s = none) := by
  refine ⟨?_, ?_, ?_⟩
  · have hsh : ∀ r ∈ List.insertionSort (rowLe 0) (data.map mkRow),
        ∃ t q, r = [SqlValue.textV t, SqlValue.realV q] := by
      intro r hr
      rw [List.mem_insertionSort] at hr
      obtain ⟨p, _, rfl⟩ := List.mem_map.mp hr
      exact ⟨p.1, p.2, rfl⟩
    obtain ⟨prs, hok, hmap⟩ := mapM_readRow_ok _ hsh
    refine ⟨prs.filterMap (fun p =>
      (parse_ts p.1).map (fun dt => (naiveEpoch dt, p.2))), ?_, ?_, ?_⟩
    · rw [read_points_mkScope_std, hok]
    · rw [length_filterMap_eq]
      have h1 : List.countP (fun p => ((parse_ts p.1).map
          (fun dt => (naiveEpoch dt, p.2))).isSome) prs
          = List.countP pairParses prs := by
        apply List.countP_congr
        intro p _
        simp [pairParses, Option.isSome_map]
      rw [h1]
      have h2 : List.countP rowParses (List.map mkRow prs)
          = List.countP rowParses (List.map mkRow data) := by
        apply List.Perm.countP_eq
        rw [← hmap]
        exact List.perm_insertionSort _ _
      rw [List.countP_map, List.countP_map] at h2
      have h3 : (rowParses ∘ mkRow) = pairParses := by
        funext p
        rfl
      rw [h3] at h2
      exact h2
    · intro p hp
      obtain ⟨pr, hpr, hsome⟩ := List.mem_filterMap.mp hp
      have h4 : mkRow pr ∈ List.map mkRow prs := List.mem_map_of_mem mkRow hpr
      rw [← hmap] at h4
      have h5 : mkRow pr ∈ List.map mkRow data :=
        (List.mem_insertionSort _).mp h4
      obtain ⟨r, hrdata, hreq⟩ := List.mem_map.mp h5
      have hr2 : r = pr := by
        simp only [mkRow, List.cons.injEq, SqlValue.textV.injEq,
          SqlValue.realV.injEq, and_true] at hreq
        exact Prod.ext hreq.1 hreq.2
      obtain ⟨dt, hdt, hpdt⟩ := Option.map_eq_some'.mp hsome
      exact ⟨r, hrdata, dt, by rw [hr2]; exact hdt,
        by rw [hr2]; exact hpdt.symm⟩
  · intro j g dt hj hg hprev
    exact findSome?_first _ tsFormats j g dt hj hg hprev
  · intro hall
    exact List.findSome?_eq_none_iff.mpr hall

/-- C6 witness: the slash format (second in the list) wins for a slashed
timestamp after the first format misses, and a non-matching text parses to
nothing. -/
theorem C6_format_tolerance_witness :
    parse_ts ("2025/11/03 10:00:00") = some ⟨2025, 11, 3, 10, 0, 0⟩ ∧
    parse_ts ("garbage") = none := by
  constructor
  · refine (C6_format_tolerance [] ("2025/11/03 10:00:00")).2.1 1
      ⟨'/', ' ', false⟩ ⟨2025, 11, 3, 10, 0, 0⟩ (by decide) (by decide) ?_
    intro k gk hk hgk
    have hk0 : k = 0 := by omega
    subst hk0
    simp only [tsFormats, List.get?_cons_zero, Option.some.injEq] at hgk
    subst hgk
    decide
  · exact (C6_format_tolerance [] ("garbage")).2.2 (by decide)

/-- The optional last element of a non-empty list, via its default form. -/
theorem getLast?_cons_eq {α : Type} (a : α) (l : List α) :
    (a :: l).getLast? = some (l.getLastD a) := by
  simp only [List.getLastD_eq_getLast?]
  cases hl : l.getLast? <;> simp [List.getLast?_cons, hl]

/-- C7.  For a non-empty point sequence the x axis spans exactly the first
and last point instants; one vertical gridline is drawn per calendar day
d = 2 ..= L of the month (local time) of the first point, where L is
computed as the day before the first day of the following month (December
rolling over to January of the next year), gridlines outside the x range
being omitted; points spanning all of November give exactly 29 gridlines,
and a December point gives L = 31 through the year rollover. -/
theorem C7_render_axis (off : Int) (pts : List (Int × ℚ)) (h : pts ≠ []) :
    ∃ info, render_series off pts = some info ∧
      (∃ p0, pts.head? = some p0 ∧ info.minX = p0.1) ∧
      (∃ pl, pts.getLast? = some pl ∧ info.maxX = pl.1) ∧
      info.lastDay = renderLastDay off info.minX ∧
      (∀ x : Int, x ∈ info.gridTicks ↔ ∃ d : Nat, 2 ≤ (d : Int) ∧
        (d : Int) ≤ info.lastDay ∧
        x = daysFromCivil (localCivil off info.minX).1
          (localCivil off info.minX).2.1 (d : Int) * 86400 ∧
        info.minX ≤ x ∧ x ≤ info.maxX) ∧
      (render_series 0 novPts).map (fun i => i.gridTicks.length) = some 29 ∧
      (render_series 0 novPts).map RenderInfo.lastDay = some 30 ∧
      (render_series 0 decPts).map RenderInfo.lastDay = some 31 := by
  rcases pts with _ | ⟨p, rest⟩
  · exact absurd rfl h
  refine ⟨⟨p.1, (rest.getLastD p).1, renderLastDay off p.1,
    renderTicks off p.1 (rest.getLastD p).1⟩, rfl, ⟨p, rfl, rfl⟩,
    ⟨rest.getLastD p, getLast?_cons_eq p rest, rfl⟩, rfl, ?_,
    by decide, by decide, by decide⟩
  dsimp only
  intro x
  unfold renderTicks
  constructor
  · intro hx
    obtain ⟨d, hd, hfd⟩ := List.mem_filterMap.mp hx
    rw [List.mem_range'_1] at hd
    simp only at hfd
    split_ifs at hfd with hc
    · obtain ⟨hx1, hx2⟩ := hc
      obtain rfl : daysFromCivil (localCivil off p.1).1
          (localCivil off p.1).2.1 (d : Int) * 86400 = x :=
        Option.some.inj hfd
      exact ⟨d, by omega, by omega, rfl, hx1, hx2⟩
  · rintro ⟨d, hd2, hdl, hxe, hx1, hx2⟩
    apply List.mem_filterMap.mpr
    refine ⟨d, ?_, ?_⟩
    · rw [List.mem_range'_1]
      omega
    · subst hxe
      simp only
      rw [if_pos ⟨hx1, hx2⟩]

/-- C7 witness: the geometry exists for the November fixture. -/
theorem C7_render_axis_witness :
    ∃ info, render_series 0 novPts = some info := by
  obtain ⟨info, hi, _⟩ := C7_render_axis 0 novPts (by decide)
  exact ⟨info, hi⟩

/-- Binding a successful Except value applies the continuation. -/
theorem exceptBindOk {α β : Type} (a : α) (f : α → Except String β) :
    (Except.ok a >>= f) = f a := rfl

/-- Looking a name up in a cons database checks the head first. -/
theorem dbLookup_cons (n : String) (tb : Table) (rest : Db) (t : String) :
    dbLookup ((n, tb) :: rest) t =
      if nameEq n t then some tb else dbLookup rest t := by
  by_cases h : nameEq n t <;> simp [dbLookup, List.find?_cons, h]

/-- Creating a table preserves collector well-formedness. -/
theorem ensure_table_wf (ts : String) (db : Db) (t : String)
    (h : dbWf ts db) : dbWf ts (ensure_table db t) := by
  unfold ensure_table
  split_ifs with hex
  · exact h
  · intro p hp
    rcases List.mem_append.mp hp with h1 | h2
    · exact h p h1
    · simp only [List.mem_singleton] at h2
      subst h2
      exact ⟨rfl, by simp⟩

/-- Creating a table adds no rows. -/
theorem ensure_table_count (db : Db) (t : String) :
    dbRowCount (ensure_table db t) = dbRowCount db := by
  unfold ensure_table
  split_ifs
  · rfl
  · simp [dbRowCount]

/-- After `ensure_table` the table exists. -/
theorem ensure_table_lookup (db : Db) (t : String) :
    (dbLookup (ensure_table db t) t).isSome := by
  unfold ensure_table
  split_ifs with hex
  · exact hex
  · have hnone : List.find? (fun p => nameEq p.1 t) db = none := by
      by_contra hne
      obtain ⟨pr, hpr⟩ := Option.ne_none_iff_exists'.mp hne
      exact hex (by simp [dbLookup, hpr])
    simp [dbLookup, List.find?_append, hnone, List.find?_cons, nameEq,
      eqIgnoreAsciiCase]

/-- Updating the present table `t` preserves well-formedness when the
update does. -/
theorem dbUpdateFirst_wf (ts : String) (db : Db) (t : String)
    (f : Table → Table) (hwf : dbWf ts db)
    (hf : ∀ tb, tableWf ts tb → tableWf ts (f tb)) :
    dbWf ts (dbUpdateFirst db t f) := by
  induction db with
  | nil => intro p hp; cases hp
  | cons pr rest ih =>
    rw [dbUpdateFirst]
    split_ifs with hn
    · intro p hp
      rcases List.mem_cons.mp hp with h1 | h2
      · subst h1
        exact hf pr.2 (hwf pr (List.mem_cons_self pr rest))
      · exact hwf p (List.mem_cons_of_mem pr h2)
    · intro p hp
      rcases List.mem_cons.mp hp with h1 | h2
      · subst h1
        exact hwf p (List.mem_cons_self p rest)
      · exact ih (fun q hq => hwf q (List.mem_cons_of_mem pr hq)) p h2

/-- Updating the present table `t` with a one-row append adds one row. -/
theorem dbUpdateFirst_count (db : Db) (t : String) (f : Table → Table)
    (hlen : ∀ tb, (f tb).rows.length = tb.rows.length + 1)
    (hex : (dbLookup db t).isSome) :
    dbRowCount (dbUpdateFirst db t f) = dbRowCount db + 1 := by
  induction db with
  | nil => simp [dbLookup] at hex
  | cons pr rest ih =>
    rw [dbUpdateFirst]
    split_ifs with hn
    · simp only [dbRowCount, List.map_cons, List.sum_cons, hlen]
      omega
    · rcases pr with ⟨n, tb⟩
      rw [dbLookup_cons] at hex
      rw [if_neg hn] at hex
      simp only [dbRowCount, List.map_cons, List.sum_cons]
      rw [show (List.map (fun p => p.2.rows.length)
        (dbUpdateFirst rest t f)).sum = dbRowCount (dbUpdateFirst rest t f)
        from rfl, ih hex]
      show _ = tb.rows.length + dbRowCount rest + 1
      omega

/-- Inserting into an existing well-formed table succeeds, preserves
well-formedness and adds exactly one row. -/
theorem insert_sample_ok (ts : String) (db : Db) (t : String) (v : ℚ)
    (hwf : dbWf ts db) (hex : (dbLookup db t).isSome) :
    ∃ db2, insert_sample db t ts v = .ok db2 ∧ dbWf ts db2 ∧
      dbRowCount db2 = dbRowCount db + 1 := by
  obtain ⟨tb, htb⟩ := Option.isSome_iff_exists.mp hex
  obtain ⟨pr, hfind, hsnd⟩ := Option.map_eq_some'.mp htb
  have hprmem : pr ∈ db := List.mem_of_find?_eq_some hfind
  have hcols : tb.cols = ["Timestamp", "Value"] := by
    rw [← hsnd]
    exact (hwf pr hprmem).1
  have hT : colIdxCi tb.cols ("Timestamp") = some 0 := by rw [hcols]; rfl
  have hV : colIdxCi tb.cols ("Value") = some 1 := by rw [hcols]; rfl
  have hrow : (List.range tb.cols.length).map (fun j =>
      if j = 0 then SqlValue.textV ts
      else if j = 1 then SqlValue.realV v
      else SqlValue.nullV) = [SqlValue.textV ts, SqlValue.realV v] := by
    rw [hcols]
    rfl
  refine ⟨dbUpdateFirst db t (fun tb2 =>
    ⟨tb2.cols, tb2.rows ++ [[SqlValue.textV ts, SqlValue.realV v]]⟩),
    ?_, ?_, ?_⟩
  · unfold insert_sample
    simp only [htb, hT, hV, hrow]
  · refine dbUpdateFirst_wf ts db t _ hwf (fun tb2 htb2 => ⟨htb2.1, ?_⟩)
    intro r hr
    rcases List.mem_append.mp hr with h1 | h2
    · exact htb2.2 r h1
    · simp only [List.mem_singleton] at h2
      exact ⟨v, h2⟩
  · exact dbUpdateFirst_count db t _ (fun tb2 => by simp) hex

/-- The disk pass succeeds on a well-formed database, keeps it well-formed
and adds one row per mount with positive total space. -/
theorem collect_disks_ok (ts : String) (disks : List DiskInfo) :
    ∀ db, dbWf ts db →
      ∃ db2, disks.foldlM (collectDiskStep ts) db = .ok db2 ∧
        dbWf ts db2 ∧ dbRowCount db2 =
          dbRowCount db + disks.countP (fun d => decide (0 < d.total)) := by
  induction disks with
  | nil => intro db hwf; exact ⟨db, rfl, hwf, by simp⟩
  | cons d rest ih =>
    intro db hwf
    by_cases hd : d.total ≤ 0
    · obtain ⟨db2, hok, hwf2, hcnt⟩ := ih db hwf
      refine ⟨db2, ?_, hwf2, ?_⟩
      · rw [List.foldlM_cons]
        have hstep : collectDiskStep ts db d = .ok db := by
          unfold collectDiskStep
          rw [if_pos hd]
        rw [hstep, exceptBindOk]
        exact hok
      · have hnd : decide (0 < d.total) = false :=
          decide_eq_false (not_lt.mpr hd)
        rw [hcnt, List.countP_cons, hnd]
        simp
    · push_neg at hd
      have hwfe := ensure_table_wf ts db (label_for_mount_point d.mount) hwf
      obtain ⟨db1, hok1, hwf1, hcnt1⟩ := insert_sample_ok ts
        (ensure_table db (label_for_mount_point d.mount))
        (label_for_mount_point d.mount) ((1 - d.avail / d.total) * 100)
        hwfe (ensure_table_lookup db (label_for_mount_point d.mount))
      obtain ⟨db2, hok2, hwf2, hcnt2⟩ := ih db1 hwf1
      refine ⟨db2, ?_, hwf2, ?_⟩
      · rw [List.foldlM_cons]
        have hstep : collectDiskStep ts db d = .ok db1 := by
          unfold collectDiskStep
          rw [if_neg (not_le.mpr hd)]
          exact hok1
        rw [hstep, exceptBindOk]
        exact hok2
      · have hnd : decide (0 < d.total) = true := decide_eq_true hd
        rw [hcnt2, hcnt1, ensure_table_count, List.countP_cons, hnd]
        simp only [eq_self_iff_true, if_true]
        omega

/-- C10.  One collection run over a fresh scope: the single timestamp taken
at the start is the one carried by the CPU row, the RAM row and the row of
every viable mount (total space positive), and the same timestamp and
scope filename appear in the printed confirmation line. -/
theorem C10_single_timestamp (host ym ts : String) (cpu mt ma : ℚ)
    (disks : List DiskInfo) :
    ∃ db3, run_collect [] host ym ts cpu mt ma disks =
        .ok (db3, "Wrote record into " ++ (ym ++ "@" ++ host ++ ".sqlite")
          ++ " at " ++ ts) ∧
      dbWf ts db3 ∧
      dbRowCount db3 = 2 + disks.countP (fun d => decide (0 < d.total)) := by
  have h0 : dbWf ts ([] : Db) := by intro p hp; cases hp
  obtain ⟨db1, hok1, hwf1, hcnt1⟩ := insert_sample_ok ts
    (ensure_table [] ("CPU")) "CPU" cpu
    (ensure_table_wf ts [] ("CPU") h0) (ensure_table_lookup [] ("CPU"))
  obtain ⟨db2, hok2, hwf2, hcnt2⟩ := insert_sample_ok ts
    (ensure_table db1 ("RAM")) "RAM" (sample_ram_percent mt ma)
    (ensure_table_wf ts db1 ("RAM") hwf1) (ensure_table_lookup db1 ("RAM"))
  obtain ⟨db3, hok3, hwf3, hcnt3⟩ := collect_disks_ok ts disks db2 hwf2
  refine ⟨db3, ?_, hwf3, ?_⟩
  · unfold run_collect
    rw [hok1, exceptBindOk]
    dsimp only
    rw [hok2, exceptBindOk, hok3, exceptBindOk]
    rfl
  · rw [hcnt3, hcnt2, ensure_table_count, hcnt1, ensure_table_count]
    simp only [dbRowCount, List.map_nil, List.sum_nil]

/-- C10 witness: a concrete run over one viable and one non-viable mount
prints the scope filename with the single captured timestamp. -/
theorem C10_single_timestamp_witness :
    ∃ db3, run_collect [] ("H") ("202511") ("2025-11-03 10:00:00") 5 8 2
        [⟨10, 3, "/mnt/data"⟩, ⟨0, 0, "/x"⟩] =
      .ok (db3, "Wrote record into "
        ++ ("202511" ++ "@" ++ "H" ++ ".sqlite")
        ++ " at " ++ "2025-11-03 10:00:00") := by
  obtain ⟨db3, hok, _, _⟩ := C10_single_timestamp ("H") ("202511")
    ("2025-11-03 10:00:00") 5 8 2 [⟨10, 3, "/mnt/data"⟩, ⟨0, 0, "/x"⟩]
  exact ⟨db3, hok⟩

end WinboxStats
